import Mathlib

/-!
Verification of `lib/view.js` (the express `View` class): template-name → file-path
resolution, lazy engine binding into a shared registry, and rendering delegation.

The development shallowly embeds the source.  `lib/view.js` depends on Node's
`path` (posix) module and `fs.statSync`; those externals are modelled below:
the `path` functions from Node's documented posix semantics (implemented over
`List Char` so that every definition is structurally recursive and kernel
evaluable), and the filesystem as an abstract
`statSync : String → Except StatErr Stats` inside an `Env`.
-/

namespace NodePath

/-- Split a character list on `'/'` (the semantics of `String.splitOn "/"`):
`"a/b" ↦ ["a","b"]`, `"/a" ↦ ["","a"]`, `"" ↦ [""]`. -/
def splitSlash : List Char → List (List Char)
  | [] => [[]]
  | c :: cs =>
    let r := splitSlash cs
    if c = '/' then [] :: r
    else
      match r with
      | [] => [[c]]
      | s :: rest => (c :: s) :: rest

/-- Join segments with `'/'` (the semantics of `String.intercalate "/"`). -/
def joinSegs : List (List Char) → List Char
  | [] => []
  | [s] => s
  | s :: rest => s ++ '/' :: joinSegs rest

/-- A character list ends with the given suffix. -/
def endsWithChars (b e : List Char) : Bool := e.reverse.isPrefixOf b.reverse

/-- Drop a suffix of the given length from the end of a character list. -/
def dropSuffix (b : List Char) (n : Nat) : List Char := (b.reverse.drop n).reverse

/-- Model of Node `path.posix.isAbsolute`: a path is absolute when it starts
with a forward slash. -/
def isAbsoluteChars (p : List Char) : Bool := p.head? = some '/'

/-- `isAbsoluteChars` on strings. -/
def isAbsolute (p : String) : Bool := isAbsoluteChars p.data

/-- Segment-level model of Node's internal `normalizeString`: resolves `.` and
`..` segments and drops empty segments (collapsing repeated slashes).  When
`allowAboveRoot` is true (relative paths), leading `..` segments that cannot be
popped are kept; otherwise (absolute paths) they are discarded. -/
def normalizeSegs (allowAboveRoot : Bool) (segs : List (List Char)) :
    List (List Char) :=
  segs.foldl (fun acc seg =>
    if seg = [] ∨ seg = ['.'] then acc
    else if seg = ['.', '.'] then
      match acc.getLast? with
      | some last =>
        if last = ['.', '.'] then (if allowAboveRoot then acc ++ [seg] else acc)
        else acc.dropLast
      | none => if allowAboveRoot then [seg] else []
    else acc ++ [seg]) []

/-- Model of Node `path.posix.normalize` on character lists. -/
def normalizeChars (p : List Char) : List Char :=
  if p = [] then ['.']
  else
    let abs := isAbsoluteChars p
    let trailing := p.getLast? = some '/'
    let core := joinSegs (normalizeSegs (!abs) (splitSlash p))
    if core = [] then
      if abs then ['/'] else if trailing then ['.', '/'] else ['.']
    else
      let core := if trailing then core ++ ['/'] else core
      if abs then '/' :: core else core

/-- Model of Node `path.posix.normalize`. -/
def normalize (p : String) : String := String.mk (normalizeChars p.data)

/-- Model of Node `path.posix.join`: concatenate the non-empty parts with `/`
and normalize; with no non-empty part the result is `"."`. -/
def join (parts : List String) : String :=
  let joined := joinSegs ((parts.map String.data).filter (fun s => s ≠ []))
  if joined = [] then "." else String.mk (normalizeChars joined)

/-- Model of Node `path.posix.resolve`: process the arguments right-to-left,
prepending each (slash-separated) until an absolute path is reached, falling
back to the process working directory `cwd`; then normalize. -/
def resolve (cwd : String) (parts : List String) : String :=
  let step := fun (st : List Char × Bool) (p : List Char) =>
    if st.2 then st
    else if p = [] then st
    else (p ++ '/' :: st.1, isAbsoluteChars p)
  let st := ((parts.map String.data).reverse ++ [cwd.data]).foldl step ([], false)
  let core := joinSegs (normalizeSegs (!st.2) (splitSlash st.1))
  if st.2 then String.mk ('/' :: core)
  else if core ≠ [] then String.mk core else "."

/-- Helper for `dirname`: scan the characters from index `i` down to index 1,
skipping trailing slashes, and return the index of the first slash found after
a non-slash character (Node's `end` marker), if any. -/
def dirnameGo (cs : List Char) (matchedSlash : Bool) : Nat → Option Nat
  | 0 => none
  | i + 1 =>
    if cs.getD (i + 1) ' ' = '/' then
      if !matchedSlash then some (i + 1) else dirnameGo cs matchedSlash i
    else dirnameGo cs false i

/-- Model of Node `path.posix.dirname`. -/
def dirname (p : String) : String :=
  if p.data = [] then "."
  else
    let cs := p.data
    let hasRoot := cs.getD 0 ' ' = '/'
    match dirnameGo cs true (cs.length - 1) with
    | none => if hasRoot then "/" else "."
    | some e => if hasRoot ∧ e = 1 then "//" else String.mk (cs.take e)

/-- Model of Node `path.posix.basename` (one-argument form) on character
lists: the final path segment, ignoring trailing slashes. -/
def basenameChars (p : List Char) : List Char :=
  ((p.reverse.dropWhile (· = '/')).takeWhile (· ≠ '/')).reverse

/-- Model of Node `path.posix.basename` (one-argument form). -/
def basename (p : String) : String := String.mk (basenameChars p.data)

/-- Model of Node `path.posix.basename(path, suffix)`: like `basename`, but a
non-empty `suffix` is stripped when the final segment ends with it and is not
the suffix itself; a `path` equal to the suffix yields `""`. -/
def basenameExt (p ext : String) : String :=
  if ext.data ≠ [] ∧ ext.data.length ≤ p.data.length then
    if ext.data = p.data then ""
    else
      let b := basenameChars p.data
      if endsWithChars b ext.data ∧ b ≠ ext.data then
        String.mk (dropSuffix b ext.data.length)
      else String.mk b
  else basename p

/-- Model of Node `path.posix.extname`: the suffix of the final segment from
its last dot, or `""` when the segment has no dot, starts with its only dot,
or is `".."`. -/
def extname (p : String) : String :=
  let b := basenameChars p.data
  match b.reverse.findIdx? (· = '.') with
  | none => ""
  | some j =>
    let i := b.length - 1 - j
    if i = 0 then "" else if b = ['.', '.'] then "" else String.mk (b.drop i)

end NodePath


/-! ## Filesystem model

`lib/view.js` consumes `fs.statSync`, which either returns an `fs.Stats`
object (of which only `isFile()` is consulted) or throws an error such as
`ENOENT` or `EACCES`.  The process working directory (consulted by
`path.resolve` for relative roots) completes the environment. -/

/-- The kind of filesystem object a successful `stat` reports. -/
inductive FileKind
  | file
  | directory
  | other
deriving DecidableEq, Repr

/-- Model of `fs.Stats`: only the file kind is relevant (`stats.isFile()`). -/
structure Stats where
  kind : FileKind
deriving DecidableEq, Repr

/-- Model of `fs.Stats.isFile()`. -/
def Stats.isFile (s : Stats) : Bool := s.kind = .file

/-- An error thrown by `fs.statSync` (`ENOENT`, `EACCES`, or any other). -/
inductive StatErr
  | ENOENT
  | EACCES
  | other (code : String)
deriving DecidableEq, Repr

/-- The ambient environment: the filesystem (`fs.statSync`) and the process
working directory (`process.cwd()`, consulted by `path.resolve`). -/
structure Env where
  statSync : String → Except StatErr Stats
  cwd : String

/-- A constructed view instance: the fields `view.js` assigns on `this`. -/
structure View (γ : Type) where
  defaultEngine : Option String
  ext : String
  name : String
  root : Option (List String)
  engine : γ
  path : Option String
deriving DecidableEq

/-! ## The `View` class (`lib/view.js`) -/

namespace View

/-- The errors a `View` construction can raise.  The source throws plain
`Error`s; the spec's taxonomy names them `ConfigurationError` (the
`'No default engine was specified and no extension was provided.'` throw) and
`EngineLoadError` (the `` `Module ${mod} does not provide a view engine.` ``
throw).  `typeError` stands for an untyped `TypeError` raised by the JS
runtime or by Node's `path` module, not by `view.js` itself. -/
inductive ViewError
  | configError
  | engineLoadError (mod : String)
  | typeError (msg : String)
deriving DecidableEq, Repr

/-- The shared engine registry `opts.engines`: a JS object mapping an
extension (with leading dot) to a bound engine capability.  Modelled as an
association list; `regSet` prepends, `regGet` takes the first match, so the
latest bind wins. -/
abbrev Registry (γ : Type) : Type := List (String × γ)

/-- Read `engines[key]`.  A JS falsy entry (which `view.js` treats as
unbound) is modelled as absence. -/
def regGet {γ : Type} : Registry γ → String → Option γ
  | [], _ => none
  | (k, v) :: rest, key => if k = key then some v else regGet rest key

/-- Write `engines[key] = value`. -/
def regSet {γ : Type} (es : Registry γ) (key : String) (v : γ) : Registry γ :=
  (key, v) :: es

/-- Model of a loaded engine provider module, i.e. of `require(mod)`:
`exportExpress` is `some f` when the module's `__express` export is a
function `f`, and `none` when `__express` is absent or not a function. -/
structure Provider (γ : Type) where
  exportExpress : Option γ

/-- The recognized construction options of `view.js`.  Absent fields model
JS `undefined`.  `root` may be a single directory or an array in the source
(`[].concat(this.root)` flattens one level); it is modelled directly as the
flattened list of roots. -/
structure Options (γ : Type) where
  defaultEngine : Option String := none
  engines : Option (Registry γ) := none
  root : Option (List String) := none

/-- The extension the constructor stores in `this.ext`: `extname(name)` when
`name` carries one, otherwise derived from the `defaultEngine` hint with a
leading dot prefixed exactly when the hint lacks one
(`this.defaultEngine[0] !== '.' ? '.' + this.defaultEngine : this.defaultEngine`). -/
def viewExt {γ : Type} (name : String) (opts : Options γ) : String :=
  let ext0 := NodePath.extname name
  if ext0 = "" then
    let de := opts.defaultEngine.getD ""
    if de.front ≠ '.' then "." ++ de else de
  else ext0

/-- The file name handed to `lookup`: `name`, augmented with the derived
extension when `name` carried none (`fileName += this.ext`). -/
def viewFileName {γ : Type} (name : String) (opts : Options γ) : String :=
  if NodePath.extname name = "" then name ++ viewExt name opts else name

/-- `View.prototype.tryStat`: `statSync`, with every thrown error collapsed
to `undefined`. -/
def tryStat (env : Env) (path : String) : Option Stats :=
  match env.statSync path with
  | .ok s => some s
  | .error _ => none

/-- The source's probe condition `stat && stat.isFile()`. -/
def probeIsFile (env : Env) (path : String) : Bool :=
  match tryStat env path with
  | some stat => stat.isFile
  | none => false

/-- `View.prototype.resolve(dir, file)`: probe `join(dir, file)` first, then
the directory-index fallback
`join(dir, basename(file, ext), 'index' + ext)`; `none` when neither probe
finds a regular file.  `ext` is the instance's `this.ext`. -/
def resolve (env : Env) (ext : String) (dir file : String) : Option String :=
  let path := NodePath.join [dir, file]
  if probeIsFile env path then some path
  else
    let path2 := NodePath.join [dir, NodePath.basenameExt file ext, "index" ++ ext]
    if probeIsFile env path2 then some path2 else none

/-- Probe instrumentation for `resolve`: the paths handed to `tryStat`, in
order (the second probe is issued only when the first fails). -/
def resolveProbes (env : Env) (ext : String) (dir file : String) : List String :=
  let path := NodePath.join [dir, file]
  if probeIsFile env path then [path]
  else [path, NodePath.join [dir, NodePath.basenameExt file ext, "index" ++ ext]]

/-- One iteration of the `lookup` loop: resolve `name` against a single
`root` (`loc = resolve(root, name)`, split into `dirname`/`basename`, then
`View.prototype.resolve`). -/
def resolveRoot (env : Env) (ext : String) (root name : String) : Option String :=
  let loc := NodePath.resolve env.cwd [root, name]
  let dir := NodePath.dirname loc
  let file := NodePath.basename loc
  resolve env ext dir file

/-- Probe instrumentation for a single `lookup` iteration. -/
def rootProbes (env : Env) (ext : String) (root name : String) : List String :=
  let loc := NodePath.resolve env.cwd [root, name]
  resolveProbes env ext (NodePath.dirname loc) (NodePath.basename loc)

/-- `View.prototype.lookup(name)` over the flattened root list: the loop
`for (let i = 0; i < roots.length && !path; i++)` — try each root in order
and stop at the first that resolves. -/
def lookup (env : Env) (ext : String) (roots : List String) (name : String) :
    Option String :=
  match roots with
  | [] => none
  | root :: rest =>
    match resolveRoot env ext root name with
    | some path => some path
    | none => lookup env ext rest name

/-- Probe instrumentation for `lookup`: all paths handed to `tryStat` over
the whole loop, in order. -/
def lookupProbes (env : Env) (ext : String) (roots : List String)
    (name : String) : List String :=
  match roots with
  | [] => []
  | root :: rest =>
    match resolveRoot env ext root name with
    | some _ => rootProbes env ext root name
    | none => rootProbes env ext root name ++ lookupProbes env ext rest name

/-- The `View` constructor.  `req` models `require`: it maps a module name
to its loaded provider.  Returns the constructed instance together with the
(possibly mutated) shared registry, or the error thrown.

JS details made explicit:
* `options || {}` — an absent options object behaves as `{}`;
* `!this.ext` holds iff `extname(name) = ""`, and `!this.defaultEngine`
  holds iff the option is `undefined` or `""` (both falsy);
* `opts.engines[this.ext]` with `opts.engines` undefined raises an untyped
  `TypeError` (reading a property of `undefined`);
* after `opts.engines[this.ext] = fn`, the read-back
  `this.engine = opts.engines[this.ext]` yields that same `fn`
  (`regGet_regSet_self` below), so the bound capability is threaded through;
* with `this.root` undefined, `lookup` computes `[].concat(undefined) =
  [undefined]` and `path.resolve(undefined, name)` raises an untyped
  `TypeError` before any filesystem access. -/
def construct {γ : Type} (env : Env) (req : String → Provider γ) (name : String)
    (options : Option (Options γ)) : Except ViewError (View γ × Registry γ) := do
  let opts := options.getD {}
  let defaultEngine := opts.defaultEngine
  let ext0 := NodePath.extname name
  let root := opts.root
  if ext0 = "" ∧ (defaultEngine = none ∨ defaultEngine = some "") then
    throw .configError
  let ext := viewExt name opts
  let fileName := viewFileName name opts
  let engines ← match opts.engines with
    | none => throw (.typeError "Cannot read properties of undefined")
    | some es => pure es
  let bound ← match regGet engines ext with
    | some fn => pure (engines, fn)
    | none =>
      let mod := ext.drop 1
      match (req mod).exportExpress with
      | none => throw (.engineLoadError mod)
      | some fn => pure (regSet engines ext fn, fn)
  let roots ← match root with
    | none => throw (.typeError "The path argument must be of type string")
    | some rs => pure rs
  return ({ defaultEngine := defaultEngine, ext := ext, name := name,
            root := root, engine := bound.2,
            path := lookup env ext roots fileName }, bound.1)

/-- Probe instrumentation for `construct`: every path handed to `tryStat`
during construction, in order.  Construction only touches the filesystem in
the final `this.path = this.lookup(fileName)` step; every thrown error
precedes all probes. -/
def constructProbes {γ : Type} (env : Env) (req : String → Provider γ)
    (name : String) (options : Option (Options γ)) : List String :=
  let opts := options.getD {}
  let defaultEngine := opts.defaultEngine
  let ext0 := NodePath.extname name
  if ext0 = "" ∧ (defaultEngine = none ∨ defaultEngine = some "") then []
  else
    let ext := viewExt name opts
    let fileName := viewFileName name opts
    match opts.engines with
    | none => []
    | some engines =>
      match regGet engines ext, (req (ext.drop 1)).exportExpress with
      | none, none => []
      | _, _ =>
        match opts.root with
        | none => []
        | some roots => lookupProbes env ext roots fileName

/-- Load instrumentation for `construct`: the module names handed to
`require`, in order.  `require` runs exactly when the registry has no entry
for the extension (and is reached at all). -/
def constructLoads {γ : Type} (name : String)
    (options : Option (Options γ)) : List String :=
  let opts := options.getD {}
  let defaultEngine := opts.defaultEngine
  let ext0 := NodePath.extname name
  if ext0 = "" ∧ (defaultEngine = none ∨ defaultEngine = some "") then []
  else
    let ext := viewExt name opts
    match opts.engines with
    | none => []
    | some engines =>
      match regGet engines ext with
      | some _ => []
      | none => [ext.drop 1]

/-- The invocation `render` makes: the bound capability applied to the
stored (possibly absent) path and the caller's options.  The `callback`
argument is forwarded unchanged and opaquely; it is omitted from the model. -/
structure EngineCall (γ Ω : Type) where
  engine : γ
  path : Option String
  options : Ω
deriving DecidableEq

/-- `View.prototype.render(options, callback)`:
`this.engine(this.path, options, callback)` — a single forwarding call with
no pre-validation; the call made is returned as data. -/
def render {γ Ω : Type} (v : View γ) (options : Ω) : EngineCall γ Ω :=
  { engine := v.engine, path := v.path, options := options }

end View



/-! ## Concrete fixtures

Small closed environments used to instantiate the theorems below. -/

namespace Fix

/-- Filesystem where both `/views/index.html` and `/views/index/index.html`
are regular files. -/
def fsBoth : String → Except StatErr Stats := fun p =>
  if p = "/views/index.html" ∨ p = "/views/index/index.html" then .ok ⟨.file⟩
  else .error .ENOENT

/-- Filesystem where only `/views/index/index.html` is a regular file. -/
def fsIdxOnly : String → Except StatErr Stats := fun p =>
  if p = "/views/index/index.html" then .ok ⟨.file⟩ else .error .ENOENT

/-- Filesystem where only `/b/x.html` is a regular file. -/
def fsOnlyB : String → Except StatErr Stats := fun p =>
  if p = "/b/x.html" then .ok ⟨.file⟩ else .error .ENOENT

/-- Empty filesystem: every stat fails with `ENOENT`. -/
def fsNone : String → Except StatErr Stats := fun _ => .error .ENOENT

/-- Filesystem where every stat fails with `EACCES`. -/
def fsDenied : String → Except StatErr Stats := fun _ => .error .EACCES

/-- Filesystem where `/views/index.html` exists but is a directory. -/
def fsDir : String → Except StatErr Stats := fun p =>
  if p = "/views/index.html" then .ok ⟨.directory⟩ else .error .ENOENT

def envBoth : Env := ⟨fsBoth, "/cwd"⟩
def envIdxOnly : Env := ⟨fsIdxOnly, "/cwd"⟩
def envOnlyB : Env := ⟨fsOnlyB, "/cwd"⟩
def envNone : Env := ⟨fsNone, "/cwd"⟩
def envDenied : Env := ⟨fsDenied, "/cwd"⟩
def envDir : Env := ⟨fsDir, "/cwd"⟩

/-- A `require` that yields a provider whose `__express` is the capability
`7` for every module name.  Capabilities are modelled as `Nat`. -/
def reqHtml : String → View.Provider Nat := fun _ => ⟨some 7⟩

/-- A `require` that yields a provider whose `__express` is not a function. -/
def reqBad : String → View.Provider Nat := fun _ => ⟨none⟩

/-- A registry with `.html` already bound to capability `7`. -/
def regHtml : View.Registry Nat := [(".html", 7)]

/-- Options: default engine `html`, empty shared registry, root `/views`. -/
def optsHtml : View.Options Nat :=
  { defaultEngine := some "html", engines := some [], root := some ["/views"] }

/-- Options: default engine `html`, registry with `.html` bound, root
`/views`. -/
def optsBound : View.Options Nat :=
  { defaultEngine := some "html", engines := some regHtml, root := some ["/views"] }

/-- Options with no `engines` registry at all. -/
def optsNoEngines : View.Options Nat :=
  { defaultEngine := none, engines := none, root := some ["/views"] }

/-- Options whose default-engine hint already carries its leading dot. -/
def optsDotted : View.Options Nat :=
  { defaultEngine := some ".html", engines := some regHtml, root := some ["/views"] }

/-- Options with a bound registry but no `root`. -/
def optsNoRoot : View.Options Nat :=
  { defaultEngine := none, engines := some regHtml, root := none }

end Fix

/-! ## Helper lemmas -/

/-- Sanity checks of the Node `path.posix` model on the documented examples
(extension extraction, joining, resolution, splitting). -/
theorem nodePath_model_checks :
    NodePath.extname "index" = "" ∧
    NodePath.extname "index.html" = ".html" ∧
    NodePath.extname ".bashrc" = "" ∧
    NodePath.extname "a/b.c/d" = "" ∧
    NodePath.resolve "/" ["/views", "index.html"] = "/views/index.html" ∧
    NodePath.resolve "/cwd" ["views", "index.html"] = "/cwd/views/index.html" ∧
    NodePath.resolve "/cwd" ["/a", "/b/c.html"] = "/b/c.html" ∧
    NodePath.dirname "/views/index.html" = "/views" ∧
    NodePath.basename "/views/index.html" = "index.html" ∧
    NodePath.basenameExt "index.html" ".html" = "index" ∧
    NodePath.join ["/views", "index", "index.html"] = "/views/index/index.html" ∧
    NodePath.normalize "/a/../b//c/" = "/b/c/" := by
  decide

/-- A fresh bind is immediately readable: `engines[ext] = fn` makes the
read-back `opts.engines[this.ext]` yield `fn`. -/
theorem regGet_regSet_self {γ : Type} (es : View.Registry γ) (k : String) (v : γ) :
    View.regGet (View.regSet es k v) k = some v := by
  simp [View.regGet, View.regSet]

/-- If every root fails to resolve, `lookup` returns nothing. -/
theorem lookup_eq_none_of_all_none (env : Env) (ext : String)
    (roots : List String) (name : String)
    (h : ∀ r ∈ roots, View.resolveRoot env ext r name = none) :
    View.lookup env ext roots name = none := by
  induction roots with
  | nil => rfl
  | cons a as ih =>
    have ha : View.resolveRoot env ext a name = none := h a (by simp)
    simp [View.lookup, ha, ih (fun r hr => h r (by simp [hr]))]

/-- C3: for every name without an extension and every configuration whose
`defaultEngine` is absent (or the falsy `""`), construction throws the
`ConfigurationError` (`'No default engine was specified…'`), performs no
filesystem probe and loads no engine module. -/
theorem construct_no_ext_no_defaultEngine_configError {γ : Type} (env : Env)
    (req : String → View.Provider γ) (name : String)
    (options : Option (View.Options γ))
    (hext : NodePath.extname name = "")
    (hde : (options.getD {}).defaultEngine = none ∨
      (options.getD {}).defaultEngine = some "") :
    View.construct env req name options = .error .configError ∧
    View.constructProbes env req name options = [] ∧
    View.constructLoads name options = [] := by
  have hcond : NodePath.extname name = "" ∧
      ((options.getD {}).defaultEngine = none ∨
        (options.getD {}).defaultEngine = some "") := ⟨hext, hde⟩
  refine ⟨?_, ?_, ?_⟩
  · simp [View.construct, hcond, throw, throwThe, MonadExceptOf.throw, Bind.bind,
      Except.bind]
  · simp [View.constructProbes, hcond]
  · simp [View.constructLoads, hcond]

/-- C3 witness: name `"index"` with no options object at all. -/
theorem construct_no_ext_no_defaultEngine_configError_witness :
    (NodePath.extname "index" = "" ∧
      (((none : Option (View.Options Nat)).getD {}).defaultEngine = none ∨
        ((none : Option (View.Options Nat)).getD {}).defaultEngine = some "")) ∧
    (View.construct Fix.envNone Fix.reqHtml "index" none = .error .configError ∧
      View.constructProbes Fix.envNone Fix.reqHtml "index" none = [] ∧
      View.constructLoads (γ := Nat) "index" none = []) :=
  ⟨⟨by decide, by decide⟩,
    construct_no_ext_no_defaultEngine_configError Fix.envNone Fix.reqHtml "index"
      none (by decide) (by decide)⟩

/-- Forward evaluation of `construct` when the registry already binds the
extension: no load happens, the registry is returned unchanged, and the
instance carries the bound capability and the looked-up path. -/
theorem construct_eq_of_bound {γ : Type} (env : Env) (req : String → View.Provider γ)
    (name : String) (opts : View.Options γ) (engines : View.Registry γ) (fn : γ)
    (roots : List String)
    (hcfg : ¬(NodePath.extname name = "" ∧
      (opts.defaultEngine = none ∨ opts.defaultEngine = some "")))
    (heng : opts.engines = some engines)
    (hb : View.regGet engines (View.viewExt name opts) = some fn)
    (hroot : opts.root = some roots) :
    View.construct env req name (some opts) =
      .ok ({ defaultEngine := opts.defaultEngine, ext := View.viewExt name opts,
             name := name, root := opts.root, engine := fn,
             path := View.lookup env (View.viewExt name opts) roots
               (View.viewFileName name opts) }, engines) := by
  simp [View.construct, hcfg, heng, hb, hroot, throw, throwThe, MonadExceptOf.throw,
    Bind.bind, Except.bind, pure, Except.pure]

/-- Forward evaluation of `construct` when the extension is unbound and the
provider exposes a capability: the capability is bound into the registry and
stored on the instance. -/
theorem construct_eq_of_unbound {γ : Type} (env : Env) (req : String → View.Provider γ)
    (name : String) (opts : View.Options γ) (engines : View.Registry γ) (fn : γ)
    (roots : List String)
    (hcfg : ¬(NodePath.extname name = "" ∧
      (opts.defaultEngine = none ∨ opts.defaultEngine = some "")))
    (heng : opts.engines = some engines)
    (hb : View.regGet engines (View.viewExt name opts) = none)
    (hfn : (req ((View.viewExt name opts).drop 1)).exportExpress = some fn)
    (hroot : opts.root = some roots) :
    View.construct env req name (some opts) =
      .ok ({ defaultEngine := opts.defaultEngine, ext := View.viewExt name opts,
             name := name, root := opts.root, engine := fn,
             path := View.lookup env (View.viewExt name opts) roots
               (View.viewFileName name opts) },
           View.regSet engines (View.viewExt name opts) fn) := by
  simp [View.construct, hcfg, heng, hb, hfn, hroot, throw, throwThe,
    MonadExceptOf.throw, Bind.bind, Except.bind, pure, Except.pure]

/-- Forward evaluation of `construct` when the extension is unbound and the
loaded provider does not expose a capability: the `EngineLoadError` naming
the module is thrown. -/
theorem construct_eq_of_badProvider {γ : Type} (env : Env)
    (req : String → View.Provider γ) (name : String) (opts : View.Options γ)
    (engines : View.Registry γ)
    (hcfg : ¬(NodePath.extname name = "" ∧
      (opts.defaultEngine = none ∨ opts.defaultEngine = some "")))
    (heng : opts.engines = some engines)
    (hb : View.regGet engines (View.viewExt name opts) = none)
    (hfn : (req ((View.viewExt name opts).drop 1)).exportExpress = none) :
    View.construct env req name (some opts) =
      .error (.engineLoadError ((View.viewExt name opts).drop 1)) := by
  simp [View.construct, hcfg, heng, hb, hfn, throw, throwThe,
    MonadExceptOf.throw, Bind.bind, Except.bind, pure, Except.pure]

/-- C9: the constructor validates neither `engines` nor `root`.  For a name
carrying an extension: with no options object, or with an options object
lacking `engines`, construction throws the untyped `TypeError` from reading
`opts.engines[this.ext]` on `undefined`; with `engines` bound but `root`
absent it throws the untyped `TypeError` raised by `path.resolve` inside
`lookup`; and a `typeError` is neither the `ConfigurationError` nor an
`EngineLoadError`. -/
theorem construct_missing_engines_or_root_typeError {γ : Type} (env : Env)
    (req : String → View.Provider γ) (name : String) (opts : View.Options γ)
    (engines : View.Registry γ) (fn : γ)
    (hext : NodePath.extname name ≠ "") :
    (View.construct env req name none =
      .error (.typeError "Cannot read properties of undefined")) ∧
    (opts.engines = none →
      View.construct env req name (some opts) =
        .error (.typeError "Cannot read properties of undefined")) ∧
    (opts.engines = some engines →
      View.regGet engines (View.viewExt name opts) = some fn →
      opts.root = none →
      View.construct env req name (some opts) =
        .error (.typeError "The path argument must be of type string")) ∧
    (∀ msg, View.ViewError.typeError msg ≠ .configError ∧
      ∀ m, View.ViewError.typeError msg ≠ .engineLoadError m) := by
  refine ⟨?_, ?_, ?_, ?_⟩
  · simp [View.construct, hext, throw, throwThe, MonadExceptOf.throw, Bind.bind,
      Except.bind, pure, Except.pure]
  · intro heng
    simp [View.construct, hext, heng, throw, throwThe, MonadExceptOf.throw,
      Bind.bind, Except.bind, pure, Except.pure]
  · intro heng hb hroot
    simp [View.construct, hext, heng, hb, hroot, throw, throwThe,
      MonadExceptOf.throw, Bind.bind, Except.bind, pure, Except.pure]
  · intro msg
    exact ⟨by simp, fun m => by simp⟩

/-- C9 witness: name `"index.html"`, instantiated once with no options,
once with options lacking `engines`, and once with `engines` bound but
`root` absent. -/
theorem construct_missing_engines_or_root_typeError_witness :
    NodePath.extname "index.html" ≠ "" ∧
    (View.construct Fix.envNone Fix.reqHtml "index.html" none =
      .error (.typeError "Cannot read properties of undefined")) ∧
    (View.construct Fix.envNone Fix.reqHtml "index.html" (some Fix.optsNoEngines) =
      .error (.typeError "Cannot read properties of undefined")) ∧
    (View.construct Fix.envNone Fix.reqHtml "index.html" (some Fix.optsNoRoot) =
      .error (.typeError "The path argument must be of type string")) :=
  ⟨by decide,
    (construct_missing_engines_or_root_typeError Fix.envNone Fix.reqHtml
      "index.html" Fix.optsNoEngines Fix.regHtml 7 (by decide)).1,
    (construct_missing_engines_or_root_typeError Fix.envNone Fix.reqHtml
      "index.html" Fix.optsNoEngines Fix.regHtml 7 (by decide)).2.1 (by decide),
    (construct_missing_engines_or_root_typeError Fix.envNone Fix.reqHtml
      "index.html" Fix.optsNoRoot Fix.regHtml 7 (by decide)).2.2.1 (by decide)
      (by decide) (by decide)⟩

/-- C1: if some root `r` yields a match and every earlier root fails, lookup
returns the path found under `r`, and the probe trace is exactly the trace
of the roots up to and including `r` — later roots are never probed. -/
theorem lookup_stops_at_first_matching_root (env : Env) (ext name : String)
    (pre : List String) (r : String) (post : List String) (p : String)
    (hpre : ∀ r' ∈ pre, View.resolveRoot env ext r' name = none)
    (hr : View.resolveRoot env ext r name = some p) :
    View.lookup env ext (pre ++ r :: post) name = some p ∧
    View.lookupProbes env ext (pre ++ r :: post) name =
      View.lookupProbes env ext (pre ++ [r]) name := by
  induction pre with
  | nil => constructor <;> simp [View.lookup, View.lookupProbes, hr]
  | cons a as ih =>
    have ha : View.resolveRoot env ext a name = none := hpre a (by simp)
    have ih' := ih (fun r' hm => hpre r' (by simp [hm]))
    constructor <;> simp [View.lookup, View.lookupProbes, ha, ih'.1, ih'.2]

/-- C1 witness: roots `["/a", "/b", "/c"]` with the only match under `/b`:
lookup returns `/b/x.html` and the probe trace ends at `/b`. -/
theorem lookup_stops_at_first_matching_root_witness :
    (∀ r' ∈ ["/a"], View.resolveRoot Fix.envOnlyB ".html" r' "x.html" = none) ∧
    View.resolveRoot Fix.envOnlyB ".html" "/b" "x.html" = some "/b/x.html" ∧
    View.lookup Fix.envOnlyB ".html" (["/a"] ++ "/b" :: ["/c"]) "x.html" =
      some "/b/x.html" ∧
    View.lookupProbes Fix.envOnlyB ".html" (["/a"] ++ "/b" :: ["/c"]) "x.html" =
      View.lookupProbes Fix.envOnlyB ".html" (["/a"] ++ ["/b"]) "x.html" :=
  ⟨by decide, by decide,
    (lookup_stops_at_first_matching_root Fix.envOnlyB ".html" "x.html" ["/a"]
        "/b" ["/c"] "/b/x.html" (by decide) (by decide)).1,
    (lookup_stops_at_first_matching_root Fix.envOnlyB ".html" "x.html" ["/a"]
        "/b" ["/c"] "/b/x.html" (by decide) (by decide)).2⟩

/-- C2: within one root the exact-file probe strictly precedes and wins over
the directory-index fallback (`resolveProbes` always starts with
`join(dir, file)`, and when that probe hits a regular file, `resolve` returns
it); concretely, resolving name `"index"` with `defaultEngine = "html"` under
root `"/views"` yields `/views/index.html` when that file exists (even with
`/views/index/index.html` also present), and `/views/index/index.html` when
only the latter exists. -/
theorem resolve_exact_file_beats_directory_index :
    (∀ (env : Env) (ext dir file : String),
      (View.resolveProbes env ext dir file).head? =
        some (NodePath.join [dir, file]) ∧
      (View.probeIsFile env (NodePath.join [dir, file]) = true →
        View.resolve env ext dir file = some (NodePath.join [dir, file]))) ∧
    ((View.construct Fix.envBoth Fix.reqHtml "index" (some Fix.optsHtml)).toOption.map
        (fun x => x.1.path) = some (some "/views/index.html")) ∧
    ((View.construct Fix.envIdxOnly Fix.reqHtml "index"
          (some Fix.optsHtml)).toOption.map
        (fun x => x.1.path) = some (some "/views/index/index.html")) := by
  refine ⟨fun env ext dir file => ⟨?_, fun h => ?_⟩, by decide, by decide⟩
  · by_cases h : View.probeIsFile env (NodePath.join [dir, file]) <;>
      simp [View.resolveProbes, h]
  · simp [View.resolve, h]

/-- C2 witness: with both `/views/index.html` and `/views/index/index.html`
present, the exact file wins. -/
theorem resolve_exact_file_beats_directory_index_witness :
    View.probeIsFile Fix.envBoth (NodePath.join ["/views", "index.html"]) = true ∧
    View.resolve Fix.envBoth ".html" "/views" "index.html" =
      some (NodePath.join ["/views", "index.html"]) :=
  ⟨by decide,
    (resolve_exact_file_beats_directory_index.1 Fix.envBoth ".html" "/views"
        "index.html").2 (by decide)⟩

/-- C4: when `engines[ext]` is unbound, the provider named by the extension
minus its leading dot is loaded (exactly that one module); if the provider
exposes no capability, construction throws the `EngineLoadError` naming it;
on success the capability is bound under the extension in the returned shared
registry — readable by all subsequent constructions — and stored on the
instance. -/
theorem construct_unbound_engine_load {γ : Type} (env : Env)
    (req : String → View.Provider γ) (name : String) (opts : View.Options γ)
    (engines : View.Registry γ)
    (hcfg : ¬(NodePath.extname name = "" ∧
      (opts.defaultEngine = none ∨ opts.defaultEngine = some "")))
    (heng : opts.engines = some engines)
    (hb : View.regGet engines (View.viewExt name opts) = none) :
    View.constructLoads name (some opts) = [(View.viewExt name opts).drop 1] ∧
    ((req ((View.viewExt name opts).drop 1)).exportExpress = none →
      View.construct env req name (some opts) =
        .error (.engineLoadError ((View.viewExt name opts).drop 1))) ∧
    (∀ fn, (req ((View.viewExt name opts).drop 1)).exportExpress = some fn →
      ∀ roots, opts.root = some roots →
        View.construct env req name (some opts) =
          .ok ({ defaultEngine := opts.defaultEngine,
                 ext := View.viewExt name opts, name := name, root := opts.root,
                 engine := fn,
                 path := View.lookup env (View.viewExt name opts) roots
                   (View.viewFileName name opts) },
               View.regSet engines (View.viewExt name opts) fn) ∧
        View.regGet (View.regSet engines (View.viewExt name opts) fn)
          (View.viewExt name opts) = some fn) := by
  refine ⟨by simp [View.constructLoads, hcfg, heng, hb], fun hfn =>
    construct_eq_of_badProvider env req name opts engines hcfg heng hb hfn,
    fun fn hfn roots hroot =>
      ⟨construct_eq_of_unbound env req name opts engines fn roots hcfg heng hb
          hfn hroot,
        regGet_regSet_self engines (View.viewExt name opts) fn⟩⟩

/-- C4 witness: name `"index"` with default engine `html` and an empty
registry — module `"html"` is loaded; a provider without `__express` throws
the `EngineLoadError`; a good provider gets bound and stored. -/
theorem construct_unbound_engine_load_witness :
    View.regGet ([] : View.Registry Nat) (View.viewExt "index" Fix.optsHtml) =
      none ∧
    View.constructLoads "index" (some Fix.optsHtml) =
      [(View.viewExt "index" Fix.optsHtml).drop 1] ∧
    View.construct Fix.envNone Fix.reqBad "index" (some Fix.optsHtml) =
      .error (.engineLoadError ((View.viewExt "index" Fix.optsHtml).drop 1)) ∧
    View.construct Fix.envBoth Fix.reqHtml "index" (some Fix.optsHtml) =
      .ok ({ defaultEngine := Fix.optsHtml.defaultEngine,
             ext := View.viewExt "index" Fix.optsHtml, name := "index",
             root := Fix.optsHtml.root, engine := 7,
             path := View.lookup Fix.envBoth (View.viewExt "index" Fix.optsHtml)
               ["/views"] (View.viewFileName "index" Fix.optsHtml) },
           View.regSet [] (View.viewExt "index" Fix.optsHtml) 7) ∧
    View.regGet (View.regSet [] (View.viewExt "index" Fix.optsHtml) 7)
      (View.viewExt "index" Fix.optsHtml) = some 7 :=
  ⟨by decide,
    (construct_unbound_engine_load Fix.envNone Fix.reqBad "index" Fix.optsHtml []
        (by decide) (by decide) (by decide)).1,
    (construct_unbound_engine_load Fix.envNone Fix.reqBad "index" Fix.optsHtml []
        (by decide) (by decide) (by decide)).2.1 (by decide),
    ((construct_unbound_engine_load Fix.envBoth Fix.reqHtml "index" Fix.optsHtml []
        (by decide) (by decide) (by decide)).2.2 7 (by decide) ["/views"]
        (by decide)).1,
    ((construct_unbound_engine_load Fix.envBoth Fix.reqHtml "index" Fix.optsHtml []
        (by decide) (by decide) (by decide)).2.2 7 (by decide) ["/views"]
        (by decide)).2⟩

/-- C5: two sequential constructions with the same extension against the
same shared registry load the provider exactly once: the first (unbound)
construction loads the one module and binds `fn`; the second, run on the
registry the first returned, loads nothing, returns that registry unchanged,
and its instance holds the identical capability. -/
theorem construct_sequential_single_load {γ : Type} (env₁ env₂ : Env)
    (req : String → View.Provider γ) (name₁ name₂ : String)
    (opts₁ opts₂ : View.Options γ) (engines₀ : View.Registry γ) (fn : γ)
    (roots₁ roots₂ : List String)
    (hcfg₁ : ¬(NodePath.extname name₁ = "" ∧
      (opts₁.defaultEngine = none ∨ opts₁.defaultEngine = some "")))
    (heng₁ : opts₁.engines = some engines₀)
    (hun : View.regGet engines₀ (View.viewExt name₁ opts₁) = none)
    (hfn : (req ((View.viewExt name₁ opts₁).drop 1)).exportExpress = some fn)
    (hroot₁ : opts₁.root = some roots₁)
    (hcfg₂ : ¬(NodePath.extname name₂ = "" ∧
      (opts₂.defaultEngine = none ∨ opts₂.defaultEngine = some "")))
    (hext : View.viewExt name₂ opts₂ = View.viewExt name₁ opts₁)
    (heng₂ : opts₂.engines =
      some (View.regSet engines₀ (View.viewExt name₁ opts₁) fn))
    (hroot₂ : opts₂.root = some roots₂) :
    View.constructLoads name₁ (some opts₁) =
      [(View.viewExt name₁ opts₁).drop 1] ∧
    View.constructLoads name₂ (some opts₂) = [] ∧
    (∀ v₁ es₁ v₂ es₂,
      View.construct env₁ req name₁ (some opts₁) = .ok (v₁, es₁) →
      View.construct env₂ req name₂ (some opts₂) = .ok (v₂, es₂) →
      v₂.engine = v₁.engine ∧ es₂ = es₁) := by
  have h1 := construct_eq_of_unbound env₁ req name₁ opts₁ engines₀ fn roots₁
    hcfg₁ heng₁ hun hfn hroot₁
  have hb₂ : View.regGet (View.regSet engines₀ (View.viewExt name₁ opts₁) fn)
      (View.viewExt name₂ opts₂) = some fn := by
    rw [hext]; exact regGet_regSet_self engines₀ (View.viewExt name₁ opts₁) fn
  have h2 := construct_eq_of_bound env₂ req name₂ opts₂
    (View.regSet engines₀ (View.viewExt name₁ opts₁) fn) fn roots₂
    hcfg₂ heng₂ hb₂ hroot₂
  refine ⟨by simp [View.constructLoads, hcfg₁, heng₁, hun],
    by simp [View.constructLoads, hcfg₂, heng₂, hb₂], ?_⟩
  intro v₁ es₁ v₂ es₂ hc₁ hc₂
  rw [h1] at hc₁
  rw [h2] at hc₂
  injection hc₁ with hc₁
  injection hc₂ with hc₂
  have hv₁ : v₁ = _ := congrArg Prod.fst hc₁.symm
  have he₁ : es₁ = _ := congrArg Prod.snd hc₁.symm
  have hv₂ : v₂ = _ := congrArg Prod.fst hc₂.symm
  have he₂ : es₂ = _ := congrArg Prod.snd hc₂.symm
  subst hv₁ he₁ hv₂ he₂
  exact ⟨rfl, rfl⟩

/-- C5 witness: two constructions of `index.html`-style views sharing the
registry: the first loads `"html"`, the second loads nothing and both hold
capability `7`. -/
theorem construct_sequential_single_load_witness :
    View.constructLoads "index" (some Fix.optsHtml) =
      [(View.viewExt "index" Fix.optsHtml).drop 1] ∧
    View.constructLoads "index"
      (some { Fix.optsHtml with
                engines := some (View.regSet [] (View.viewExt "index" Fix.optsHtml) 7) }) =
      [] ∧
    (∀ v₁ es₁ v₂ es₂,
      View.construct Fix.envBoth Fix.reqHtml "index" (some Fix.optsHtml) =
        .ok (v₁, es₁) →
      View.construct Fix.envIdxOnly Fix.reqHtml "index"
          (some { Fix.optsHtml with
                    engines := some (View.regSet [] (View.viewExt "index" Fix.optsHtml) 7) }) =
        .ok (v₂, es₂) →
      v₂.engine = v₁.engine ∧ es₂ = es₁) :=
  construct_sequential_single_load Fix.envBoth Fix.envIdxOnly Fix.reqHtml
    "index" "index" Fix.optsHtml
    { Fix.optsHtml with
        engines := some (View.regSet [] (View.viewExt "index" Fix.optsHtml) 7) }
    [] 7 ["/views"] ["/views"]
    (by decide) (by decide) (by decide) (by decide) (by decide) (by decide)
    (by decide) (by decide) (by decide)

/-- `resolve` depends on the filesystem only through `tryStat`. -/
theorem resolve_congr (env₁ env₂ : Env)
    (h : ∀ q, View.tryStat env₁ q = View.tryStat env₂ q) (ext dir file : String) :
    View.resolve env₁ ext dir file = View.resolve env₂ ext dir file := by
  simp [View.resolve, View.probeIsFile, h]

/-- `resolveRoot` depends on the environment only through `tryStat` and the
working directory. -/
theorem resolveRoot_congr (env₁ env₂ : Env) (hc : env₁.cwd = env₂.cwd)
    (h : ∀ q, View.tryStat env₁ q = View.tryStat env₂ q) (ext root name : String) :
    View.resolveRoot env₁ ext root name = View.resolveRoot env₂ ext root name := by
  simp only [View.resolveRoot, hc]
  exact resolve_congr env₁ env₂ h ext _ _

/-- C6: a probe succeeds exactly when the stat succeeds and reports a
regular file; a directory never matches; every stat error is collapsed by
`tryStat` to `undefined`; and `lookup` observes the environment only through
the collapsed `tryStat` view (and the working directory), so it can never
propagate a filesystem error — environments whose errors differ arbitrarily
resolve identically. -/
theorem probe_requires_regular_file_and_swallows_errors :
    (∀ (env : Env) (p : String), View.probeIsFile env p = true ↔
      ∃ s, env.statSync p = .ok s ∧ s.isFile = true) ∧
    (∀ (env : Env) (p : String) (s : Stats), env.statSync p = .ok s →
      s.kind = .directory → View.probeIsFile env p = false) ∧
    (∀ (env : Env) (p : String) (e : StatErr), env.statSync p = .error e →
      View.tryStat env p = none) ∧
    (∀ (env₁ env₂ : Env), env₁.cwd = env₂.cwd →
      (∀ q, View.tryStat env₁ q = View.tryStat env₂ q) →
      ∀ (ext : String) (roots : List String) (nm : String),
        View.lookup env₁ ext roots nm = View.lookup env₂ ext roots nm) := by
  refine ⟨fun env p => ?_, fun env p s hok hdir => ?_, fun env p e herr => ?_,
    fun env₁ env₂ hc h ext roots nm => ?_⟩
  · cases hstat : env.statSync p with
    | ok s => simp [View.probeIsFile, View.tryStat, hstat]
    | error e => simp [View.probeIsFile, View.tryStat, hstat]
  · simp [View.probeIsFile, View.tryStat, hok, Stats.isFile, hdir]
  · simp [View.tryStat, herr]
  · induction roots with
    | nil => rfl
    | cons a as ih =>
      simp only [View.lookup, resolveRoot_congr env₁ env₂ hc h ext a nm, ih]

/-- C6 witness: a permission-denied stat is treated as absent (identically
to `ENOENT`), a directory at the probed path does not match, and lookup over
an all-`EACCES` filesystem equals lookup over an all-`ENOENT` one. -/
theorem probe_requires_regular_file_and_swallows_errors_witness :
    Fix.envDenied.statSync "/views/index.html" = .error .EACCES ∧
    View.tryStat Fix.envDenied "/views/index.html" = none ∧
    Fix.envDir.statSync "/views/index.html" = .ok ⟨.directory⟩ ∧
    View.probeIsFile Fix.envDir "/views/index.html" = false ∧
    View.lookup Fix.envDenied ".html" ["/views"] "index.html" =
      View.lookup Fix.envNone ".html" ["/views"] "index.html" :=
  ⟨rfl,
    probe_requires_regular_file_and_swallows_errors.2.2.1 Fix.envDenied
      "/views/index.html" .EACCES rfl,
    rfl,
    probe_requires_regular_file_and_swallows_errors.2.1 Fix.envDir
      "/views/index.html" ⟨.directory⟩ rfl (by decide),
    probe_requires_regular_file_and_swallows_errors.2.2.2 Fix.envDenied
      Fix.envNone (by decide) (fun _ => rfl) ".html" ["/views"] "index.html"⟩

/-- C7: when no root yields a match, construction still completes with the
resolved path absent, and `render` invokes the bound capability with that
absent path and the given options — no exception and no pre-validation from
this component. -/
theorem construct_no_match_render_with_absent_path {γ Ω : Type} (env : Env)
    (req : String → View.Provider γ) (name : String) (opts : View.Options γ)
    (engines : View.Registry γ) (fn : γ) (roots : List String) (o : Ω)
    (hcfg : ¬(NodePath.extname name = "" ∧
      (opts.defaultEngine = none ∨ opts.defaultEngine = some "")))
    (heng : opts.engines = some engines)
    (hb : View.regGet engines (View.viewExt name opts) = some fn)
    (hroot : opts.root = some roots)
    (hmiss : ∀ r ∈ roots, View.resolveRoot env (View.viewExt name opts) r
      (View.viewFileName name opts) = none) :
    View.construct env req name (some opts) =
      .ok ({ defaultEngine := opts.defaultEngine, ext := View.viewExt name opts,
             name := name, root := opts.root, engine := fn, path := none },
           engines) ∧
    View.render
        ({ defaultEngine := opts.defaultEngine, ext := View.viewExt name opts,
           name := name, root := opts.root, engine := fn, path := none } :
          View γ) o =
      { engine := fn, path := none, options := o } := by
  have hnone := lookup_eq_none_of_all_none env (View.viewExt name opts) roots
    (View.viewFileName name opts) hmiss
  have h := construct_eq_of_bound env req name opts engines fn roots hcfg heng
    hb hroot
  rw [hnone] at h
  exact ⟨h, rfl⟩

/-- C7 witness: an empty filesystem with `.html` pre-bound: construction
succeeds with an absent path and `render` forwards `none` with the options. -/
theorem construct_no_match_render_with_absent_path_witness :
    (∀ r ∈ ["/views"], View.resolveRoot Fix.envNone
      (View.viewExt "index" Fix.optsBound) r
      (View.viewFileName "index" Fix.optsBound) = none) ∧
    View.construct Fix.envNone Fix.reqHtml "index" (some Fix.optsBound) =
      .ok ({ defaultEngine := Fix.optsBound.defaultEngine,
             ext := View.viewExt "index" Fix.optsBound, name := "index",
             root := Fix.optsBound.root, engine := 7, path := none },
           Fix.regHtml) ∧
    View.render
        ({ defaultEngine := Fix.optsBound.defaultEngine,
           ext := View.viewExt "index" Fix.optsBound, name := "index",
           root := Fix.optsBound.root, engine := 7, path := none } : View Nat)
        "opts" =
      { engine := 7, path := none, options := "opts" } :=
  ⟨by decide,
    (construct_no_match_render_with_absent_path Fix.envNone Fix.reqHtml "index"
        Fix.optsBound Fix.regHtml 7 ["/views"] "opts" (by decide) (by decide)
        (by decide) (by decide) (by decide)).1,
    (construct_no_match_render_with_absent_path Fix.envNone Fix.reqHtml "index"
        Fix.optsBound Fix.regHtml 7 ["/views"] "opts" (by decide) (by decide)
        (by decide) (by decide) (by decide)).2⟩

/-- C8: for a name without an extension and a non-empty `defaultEngine`
hint, the stored extension is the hint with a separator prefixed exactly
when the hint lacks one, lookup runs on the augmented file name
`name ++ extension`, and the stored `name` attribute is the original name. -/
theorem construct_extension_from_defaultEngine {γ : Type} (env : Env)
    (req : String → View.Provider γ) (name de : String) (opts : View.Options γ)
    (engines : View.Registry γ) (fn : γ) (roots : List String)
    (hno : NodePath.extname name = "")
    (hde : opts.defaultEngine = some de) (hde' : de ≠ "")
    (heng : opts.engines = some engines)
    (hb : View.regGet engines (if de.front ≠ '.' then "." ++ de else de) =
      some fn)
    (hroot : opts.root = some roots) :
    View.viewExt name opts = (if de.front ≠ '.' then "." ++ de else de) ∧
    View.viewFileName name opts =
      name ++ (if de.front ≠ '.' then "." ++ de else de) ∧
    View.construct env req name (some opts) =
      .ok ({ defaultEngine := some de,
             ext := if de.front ≠ '.' then "." ++ de else de, name := name,
             root := opts.root, engine := fn,
             path := View.lookup env
               (if de.front ≠ '.' then "." ++ de else de) roots
               (name ++ (if de.front ≠ '.' then "." ++ de else de)) },
           engines) := by
  have hext : View.viewExt name opts =
      (if de.front ≠ '.' then "." ++ de else de) := by
    simp [View.viewExt, hno, hde]
  have hfile : View.viewFileName name opts =
      name ++ (if de.front ≠ '.' then "." ++ de else de) := by
    simp [View.viewFileName, hno, hext]
  have hcfg : ¬(NodePath.extname name = "" ∧
      (opts.defaultEngine = none ∨ opts.defaultEngine = some "")) := by
    simp [hde, hde']
  have h := construct_eq_of_bound env req name opts engines fn roots hcfg heng
    (hext ▸ hb) hroot
  rw [hext, hfile, hde] at h
  exact ⟨hext, hfile, h⟩

/-- C8 witness: name `"index"` with hint `"html"` (separator prefixed) and
with hint `".html"` (kept as is); both store the original name and look up
`"index.html"` / `"index" ++ ".html"`. -/
theorem construct_extension_from_defaultEngine_witness :
    NodePath.extname "index" = "" ∧
    View.viewExt "index" Fix.optsBound =
      (if "html".front ≠ '.' then "." ++ "html" else "html") ∧
    View.viewFileName "index" Fix.optsBound =
      "index" ++ (if "html".front ≠ '.' then "." ++ "html" else "html") ∧
    View.construct Fix.envBoth Fix.reqHtml "index" (some Fix.optsBound) =
      .ok ({ defaultEngine := some "html",
             ext := if "html".front ≠ '.' then "." ++ "html" else "html",
             name := "index", root := Fix.optsBound.root, engine := 7,
             path := View.lookup Fix.envBoth
               (if "html".front ≠ '.' then "." ++ "html" else "html")
               ["/views"]
               ("index" ++ (if "html".front ≠ '.' then "." ++ "html" else "html")) },
           Fix.regHtml) ∧
    View.viewExt "index" Fix.optsDotted =
      (if ".html".front ≠ '.' then "." ++ ".html" else ".html") :=
  ⟨by decide,
    (construct_extension_from_defaultEngine Fix.envBoth Fix.reqHtml "index"
        "html" Fix.optsBound Fix.regHtml 7 ["/views"] (by decide) (by decide)
        (by decide) (by decide) (by decide) (by decide)).1,
    (construct_extension_from_defaultEngine Fix.envBoth Fix.reqHtml "index"
        "html" Fix.optsBound Fix.regHtml 7 ["/views"] (by decide) (by decide)
        (by decide) (by decide) (by decide) (by decide)).2.1,
    (construct_extension_from_defaultEngine Fix.envBoth Fix.reqHtml "index"
        "html" Fix.optsBound Fix.regHtml 7 ["/views"] (by decide) (by decide)
        (by decide) (by decide) (by decide) (by decide)).2.2,
    (construct_extension_from_defaultEngine Fix.envBoth Fix.reqHtml "index"
        ".html" Fix.optsDotted Fix.regHtml 7 ["/views"] (by decide) (by decide)
        (by decide) (by decide) (by decide) (by decide)).1⟩

/-- C10: when the (possibly augmented) file name is absolute,
`path.resolve(root, name)` discards the root (and the working directory), so
every root yields the same candidate location, the same two probes and the
same per-root outcome, and the choice or order of (non-empty) root lists
cannot change the resolved path. -/
theorem lookup_absolute_name_ignores_roots (name : String)
    (habs : NodePath.isAbsolute name = true) :
    (∀ (cwd cwd' r r' : String),
      NodePath.resolve cwd [r, name] = NodePath.resolve cwd' [r', name]) ∧
    (∀ (env : Env) (ext r r' : String),
      View.rootProbes env ext r name = View.rootProbes env ext r' name ∧
      View.resolveRoot env ext r name = View.resolveRoot env ext r' name) ∧
    (∀ (env : Env) (ext : String) (roots₁ roots₂ : List String),
      roots₁ ≠ [] → roots₂ ≠ [] →
      View.lookup env ext roots₁ name = View.lookup env ext roots₂ name) := by
  have hne : name.data ≠ [] := by
    intro h
    simp [NodePath.isAbsolute, NodePath.isAbsoluteChars, h] at habs
  have habs' : NodePath.isAbsoluteChars name.data = true := habs
  have key : ∀ cwd r : String, NodePath.resolve cwd [r, name] =
      String.mk ('/' :: NodePath.joinSegs (NodePath.normalizeSegs false
        (NodePath.splitSlash (name.data ++ ['/'])))) := by
    intro cwd r
    simp [NodePath.resolve, List.foldl, hne, habs']
  have hrr : ∀ (env : Env) (ext r r' : String),
      View.resolveRoot env ext r name = View.resolveRoot env ext r' name := by
    intro env ext r r'
    simp only [View.resolveRoot, key env.cwd]
  refine ⟨fun cwd cwd' r r' => (key cwd r).trans (key cwd' r').symm,
    fun env ext r r' => ⟨?_, hrr env ext r r'⟩, fun env ext roots₁ roots₂ h₁ h₂ => ?_⟩
  · simp only [View.rootProbes, key env.cwd]
  · obtain ⟨a, as, rfl⟩ : ∃ a as, roots₁ = a :: as := by
      cases roots₁ with
      | nil => exact absurd rfl h₁
      | cons a as => exact ⟨a, as, rfl⟩
    obtain ⟨b, bs, rfl⟩ : ∃ b bs, roots₂ = b :: bs := by
      cases roots₂ with
      | nil => exact absurd rfl h₂
      | cons b bs => exact ⟨b, bs, rfl⟩
    cases hres : View.resolveRoot env ext a name with
    | some p =>
      have hb : View.resolveRoot env ext b name = some p :=
        (hrr env ext b a).trans hres
      simp [View.lookup, hres, hb]
    | none =>
      have hall₁ : ∀ r ∈ a :: as, View.resolveRoot env ext r name = none :=
        fun r _ => (hrr env ext r a).trans hres
      have hall₂ : ∀ r ∈ b :: bs, View.resolveRoot env ext r name = none :=
        fun r _ => (hrr env ext r a).trans hres
      rw [lookup_eq_none_of_all_none env ext (a :: as) name hall₁,
        lookup_eq_none_of_all_none env ext (b :: bs) name hall₂]

/-- C10 witness: the absolute file name `/b/x.html` resolves identically
under the root lists `["/views"]` and `["/a", "/other"]`. -/
theorem lookup_absolute_name_ignores_roots_witness :
    NodePath.isAbsolute "/b/x.html" = true ∧
    NodePath.resolve "/cwd" ["/views", "/b/x.html"] =
      NodePath.resolve "/elsewhere" ["/a", "/b/x.html"] ∧
    View.lookup Fix.envOnlyB ".html" ["/views"] "/b/x.html" =
      View.lookup Fix.envOnlyB ".html" ["/a", "/other"] "/b/x.html" :=
  ⟨by decide,
    (lookup_absolute_name_ignores_roots "/b/x.html" (by decide)).1 "/cwd"
      "/elsewhere" "/views" "/a",
    (lookup_absolute_name_ignores_roots "/b/x.html" (by decide)).2.2
      Fix.envOnlyB ".html" ["/views"] ["/a", "/other"] (by decide) (by decide)⟩
